import Mathlib

/-!
Verification of the segment-pipeline and audio I/O engine of the
language-learning tool (`main.py`, `audio_player.py`).

Numeric model: Python floats are modelled as rationals (`ℚ`); audio sample
buffers are lists of rationals.  Python `int()` is truncation toward zero.
A background thread observing a monotone boolean flag (the flag is set
`True` at session start and only ever flipped to `False` by `stop`) is
modelled either by an arbitrary per-iteration observation function
`alive : ℕ → Bool`, or — where loop termination depends on the flag — by
`stopAt : ℕ`, the number of iterations at which the flag is still observed
`True`.  Device I/O is an oracle: an open result (`none` = success,
`some msg` = the call raised an exception with message `msg`) and a
per-iteration read/write result.
-/

namespace LangTool

/-! ## `audio_player.py` — `AudioPlayer` -/

/-- `np.max(np.abs(audio_data))`, with `0` for the empty buffer (NumPy
raises there; see `play_audio_prepare` for how the empty case is kept
separate). -/
def np_peak (xs : List ℚ) : ℚ := xs.foldr (fun x m => max |x| m) 0

/-- The caller-side body of `AudioPlayer.play_audio` (lines 34–41): the data
handed to the playback thread.  `np.max(np.abs(...))` on an empty array
raises `ValueError`, which the surrounding `try` converts into a
`playback_error` emission and no thread is started: modelled as `none`.
Otherwise the buffer is divided by its peak when the peak exceeds `1.0`,
and passed through unchanged when it does not. -/
def play_audio_prepare (audio_data : List ℚ) : Option (List ℚ) :=
  if audio_data = [] then none
  else if 1 < np_peak audio_data then
    some (audio_data.map (fun x => x / np_peak audio_data))
  else some audio_data

/-- Line 76–77: a chunk shorter than 1024 samples is zero-padded
(`np.pad(chunk, (0, chunk_size - len(chunk)), 'constant')`). -/
def pad1024 (c : List ℚ) : List ℚ := c ++ List.replicate (1024 - c.length) 0

/-- The chunk decomposition of `for i in range(0, len(audio_data), 1024):
chunk = audio_data[i:i + 1024]` (lines 69–74). -/
def toChunks : List ℚ → List (List ℚ)
  | [] => []
  | x :: rest => ((x :: rest).take 1024) :: toChunks ((x :: rest).drop 1024)
termination_by xs => xs.length
decreasing_by
  rw [List.length_drop]
  exact Nat.sub_lt (List.length_pos.mpr (by simp)) (by norm_num)

/-- Events observable from one `_play_audio_thread` session.  `wrote c` is
the device-level `stream.write(chunk.tobytes())` call (the chunk handed to
the output device); `started`, `error`, `finished` are the Qt signals
`playback_started`, `playback_error`, `playback_finished`. -/
inductive PlayEvent where
  | started
  | wrote (chunk : List ℚ)
  | error (msg : String)
  | finished
deriving DecidableEq

/-- The chunk loop of `_play_audio_thread` (lines 69–79): at each iteration
the `is_playing` flag is checked (`alive k`), the chunk is padded and handed
to the device; a raising write aborts the loop into the `except` clause,
which emits `playback_error`.  `writeRes k = some e` means the `k`-th
`stream.write` raised with message `e`. -/
def writeChunks (writeRes : ℕ → Option String) (alive : ℕ → Bool) :
    ℕ → List (List ℚ) → List PlayEvent
  | _, [] => []
  | k, c :: rest =>
    if alive k then
      PlayEvent.wrote (pad1024 c) ::
        (match writeRes k with
         | none => writeChunks writeRes alive (k + 1) rest
         | some e => [PlayEvent.error ("播放线程出错: " ++ e)])
    else []

/-- Full event trace of `_play_audio_thread` (lines 53–88): `started` is
emitted first; a raising `self.p.open` (`openRes = some e`) jumps to the
`except` clause which emits `playback_error`; the `finally` clause emits
`playback_finished` unconditionally, on the error paths included. -/
def playThreadEvents (openRes : Option String) (writeRes : ℕ → Option String)
    (alive : ℕ → Bool) (audio_data : List ℚ) : List PlayEvent :=
  PlayEvent.started ::
    ((match openRes with
      | some e => [PlayEvent.error ("播放线程出错: " ++ e)]
      | none => writeChunks writeRes alive 0 (toChunks audio_data))
     ++ [PlayEvent.finished])

def writtenChunk : PlayEvent → Option (List ℚ)
  | PlayEvent.wrote c => some c
  | _ => none

def isFinishedPlay : PlayEvent → Bool
  | PlayEvent.finished => true
  | _ => false

def isTerminalPlay : PlayEvent → Bool
  | PlayEvent.finished => true
  | PlayEvent.error _ => true
  | _ => false

/-! ## `audio_player.py` — `AudioRecorder` -/

/-- Events observable from one `_recording_thread` session: the Qt signals
`recording_started`, `recording_finished(audio_array, rate)` and
`recording_error`. -/
inductive RecEvent where
  | started
  | finished (buf : List ℚ)
  | error (msg : String)
deriving DecidableEq

/-- The `while self.is_recording:` read loop (lines 147–154).  The flag is
monotone (set once to `True`, flipped to `False` by `stop_recording`), so
the observations are `True` for exactly the first `stopAt` iterations.
`read k = some c` is a successful `stream.read` yielding chunk `c`;
`read k = none` is a raising read, whose `except` clause prints and
`break`s out of the loop. -/
def recLoop (read : ℕ → Option (List ℚ)) : ℕ → ℕ → List ℚ
  | 0, _ => []
  | r + 1, k =>
    match read k with
    | some c => c ++ recLoop read r (k + 1)
    | none => []

/-- Full event trace of `_recording_thread` (lines 132–169): `started` is
emitted before the device is opened; a raising `self.p.open`
(`openRes = some e`) jumps to the outer `except`, emitting
`recording_error`.  After the loop, a non-empty accumulator is materialized
and emitted via `recording_finished`, an empty one via `recording_error`
with the empty-recording message (line 164).  No event is emitted from the
`finally` clause. -/
def recThreadEvents (openRes : Option String) (read : ℕ → Option (List ℚ))
    (stopAt : ℕ) : List RecEvent :=
  RecEvent.started ::
    (match openRes with
     | some e => [RecEvent.error ("录音过程出错: " ++ e)]
     | none =>
       if recLoop read stopAt 0 = [] then [RecEvent.error "录音数据为空"]
       else [RecEvent.finished (recLoop read stopAt 0)])

def isTerminalRec : RecEvent → Bool
  | RecEvent.finished _ => true
  | RecEvent.error _ => true
  | _ => false

/-! ## `audio_player.py` — session dispatch -/

/-- What a public start entry point does with the session it is asked to
begin. -/
inductive SessionAction where
  | spawnNew
  | stopThenSpawn
  | ignored
deriving DecidableEq

/-- `AudioPlayer.play_audio` entry (lines 31–32, 43–48): when a playback
session is active it first calls `stop_playback` (flag to `False` plus a
bounded `join(timeout=1.0)`), then always spawns the new session thread. -/
def play_audio_dispatch (is_playing : Bool) : SessionAction :=
  if is_playing then SessionAction.stopThenSpawn else SessionAction.spawnNew

/-- `AudioRecorder.start_recording` entry (lines 121–122): when a recording
session is active the call returns immediately — no stop request is issued
and no new session begins. -/
def start_recording_dispatch (is_recording : Bool) : SessionAction :=
  if is_recording then SessionAction.ignored else SessionAction.spawnNew

/-! ## `main.py` — `WhisperWorker` -/

/-- One adapter span of the transcription result: `segment_data['start']`,
`segment_data['end']`, `segment_data['text']`.  (`end` is a reserved word
in Lean, hence `stop`.)  The adapter contract gives `start ≥ 0`. -/
structure Span where
  start : ℚ
  stop : ℚ
  text : String
deriving DecidableEq

/-- The `AudioSegment` record constructed by `_process_segments`
(lines 125–131). -/
structure AudioSegment where
  text : String
  start_time : ℚ
  end_time : ℚ
  audio_data : List ℚ
  sample_rate : ℕ
  user_recording : Option (List ℚ) := none
deriving DecidableEq

/-- Python `int()` on a float: truncation toward zero. -/
def pyInt (q : ℚ) : ℤ := if 0 ≤ q then ⌊q⌋ else ⌈q⌉

/-- Python slicing `xs[s:e]` for nonnegative indices: both bounds are
clamped to the list length, `e ≤ s` yields `[]`, and no index ever
raises. -/
def pySlice (xs : List ℚ) (s e : ℕ) : List ℚ := (xs.drop s).take (e - s)

/-- `WhisperWorker._process_segments` (lines 109–135): each span is
converted independently; `start_sample = int(start_time * sample_rate)`,
`end_sample = int(end_time * sample_rate)`, and the segment audio is
`audio_data[start_sample:end_sample]`. -/
def process_segments (spans : List Span) (audio_data : List ℚ)
    (sample_rate : ℕ) : List AudioSegment :=
  spans.map fun sp =>
    let start_sample := (pyInt (sp.start * sample_rate)).toNat
    let end_sample := (pyInt (sp.stop * sample_rate)).toNat
    { text := sp.text.trim
      start_time := sp.start
      end_time := sp.stop
      audio_data := pySlice audio_data start_sample end_sample
      sample_rate := sample_rate }

/-- Events observable from one `WhisperWorker.run` invocation: the Qt
signals `language_detected`, `segment_completed`, `progress_updated`,
`transcription_finished`, `error_occurred`. -/
inductive PipeEvent where
  | languageDetected (language : String) (confidence : ℚ)
  | segmentReady (segment : AudioSegment)
  | progress (value : ℤ)
  | finished
  | error (msg : String)
deriving DecidableEq

/-- `int((m + 1) / n * 100)` — the progress value emitted at loop index `m`
out of `n` segments (line 98). -/
def progVal (n m : ℕ) : ℤ := pyInt (((m : ℚ) + 1) / (n : ℚ) * 100)

/-- The emission loop of `run` (lines 93–102): at iteration `i` the
`is_running` flag is checked first (`if not self.is_running: break`), then
`segment_completed` and `progress_updated` are emitted, the progress value
being `int((i + 1) / len(segments) * 100)` with `n = len(segments)`. -/
def emitLoop (alive : ℕ → Bool) (n : ℕ) : ℕ → List AudioSegment → List PipeEvent
  | _, [] => []
  | i, seg :: rest =>
    if alive i then
      PipeEvent.segmentReady seg ::
        PipeEvent.progress (progVal n i) ::
          emitLoop alive n (i + 1) rest
    else []

/-- Event trace of `WhisperWorker.run` (lines 69–104) on the path where
model loading, audio decoding and the adapter call all succeed:
`language_detected` is emitted with the constant confidence `0.9`
(line 86), then the emission loop runs over the extracted segments, then
`transcription_finished` is emitted unconditionally (line 104 is outside
the loop, reached after a `break` as well). -/
def runEvents (alive : ℕ → Bool) (language : String) (spans : List Span)
    (audio_data : List ℚ) (sample_rate : ℕ) : List PipeEvent :=
  let segments := process_segments spans audio_data sample_rate
  PipeEvent.languageDetected language (9 / 10) ::
    (emitLoop alive segments.length 0 segments ++ [PipeEvent.finished])

def segReadyOf : PipeEvent → Option AudioSegment
  | PipeEvent.segmentReady seg => some seg
  | _ => none

def progressOf : PipeEvent → Option ℤ
  | PipeEvent.progress v => some v
  | _ => none

def isSegReadyEvent : PipeEvent → Bool
  | PipeEvent.segmentReady _ => true
  | _ => false

def isProgressEvent : PipeEvent → Bool
  | PipeEvent.progress _ => true
  | _ => false

/-! ## Definitions taken from the specification's words (never from the
source), for comparison with the source-derived definitions above. -/

/-- Taken from the specification's words: the sample count
`round(end*rate) - round(start*rate)` claimed for an extracted segment
(`round` is rounding to the nearest integer). -/
def specSliceCount (start stop : ℚ) (rate : ℕ) : ℤ :=
  round (stop * (rate : ℚ)) - round (start * (rate : ℚ))

/-- Taken from the specification's words: a recording read loop in which a
single read failure is tolerated as a skipped chunk (logged, loop
continues reading subsequent chunks). -/
def specSkipContinueLoop (read : ℕ → Option (List ℚ)) : ℕ → ℕ → List ℚ
  | 0, _ => []
  | r + 1, k =>
    match read k with
    | some c => c ++ specSkipContinueLoop read r (k + 1)
    | none => specSkipContinueLoop read r (k + 1)

/-! ## Shared evaluation helpers -/

theorem pyInt_eq_floor (q : ℚ) (h : 0 ≤ q) : pyInt q = ⌊q⌋ := by
  simp [pyInt, h]

theorem floor_eval (q : ℚ) (z : ℤ) (h1 : (z : ℚ) ≤ q) (h2 : q < z + 1) : ⌊q⌋ = z :=
  Int.floor_eq_iff.mpr ⟨h1, h2⟩

theorem pyInt_eval (q : ℚ) (z : ℤ) (h1 : (z : ℚ) ≤ q) (h2 : q < z + 1) (h0 : 0 ≤ q) :
    pyInt q = z := by
  rw [pyInt_eq_floor q h0]
  exact floor_eval q z h1 h2

theorem round_eval (q : ℚ) (z : ℤ) (h1 : (z : ℚ) ≤ q + 1 / 2) (h2 : q + 1 / 2 < z + 1) :
    round q = z := by
  rw [round_eq]
  exact floor_eval _ z h1 h2

/-! ## C1 — segment extraction sample counts -/

/-- The sample count of one extracted slice, pointwise: when
`0 ≤ start < end` and `end * rate` does not exceed the waveform length, the
slice `audio_data[int(start*rate):int(end*rate)]` has exactly
`int(end*rate) - int(start*rate)` samples. -/
theorem pySlice_length_of_bounds (audio_data : List ℚ) (lo hi : ℚ)
    (h0 : 0 ≤ lo) (hlt : lo ≤ hi) (hle : hi ≤ audio_data.length) :
    (pySlice audio_data (pyInt lo).toNat (pyInt hi).toNat).length
      = (pyInt hi).toNat - (pyInt lo).toNat := by
  have h0' : 0 ≤ hi := le_trans h0 hlt
  have hse : (pyInt lo).toNat ≤ (pyInt hi).toNat := by
    rw [pyInt_eq_floor _ h0, pyInt_eq_floor _ h0']
    exact Int.toNat_le_toNat (Int.floor_le_floor hlt)
  have helen : (pyInt hi).toNat ≤ audio_data.length := by
    rw [pyInt_eq_floor _ h0', Int.toNat_le]
    exact le_trans (Int.floor_le_floor hle) (le_of_eq (Int.floor_natCast _))
  simp only [pySlice, List.length_take, List.length_drop]
  omega

/-- C1 (amended): for every adapter span with `0 ≤ start < end` and
`end * rate` within the decoded waveform, the extracted Segment's sample
count equals `int(end*rate) - int(start*rate)` — Python truncation, not
rounding to nearest; slice endpoints are clamped and never raise. -/
theorem c1_segment_sample_count (spans : List Span) (audio_data : List ℚ)
    (sample_rate : ℕ)
    (h : ∀ sp ∈ spans, 0 ≤ sp.start ∧ sp.start < sp.stop ∧
          sp.stop * (sample_rate : ℚ) ≤ (audio_data.length : ℚ)) :
    (process_segments spans audio_data sample_rate).map
        (fun seg => seg.audio_data.length)
      = spans.map (fun sp =>
          (pyInt (sp.stop * (sample_rate : ℚ))).toNat
            - (pyInt (sp.start * (sample_rate : ℚ))).toNat) := by
  unfold process_segments
  rw [List.map_map]
  apply List.map_congr_left
  intro sp hsp
  obtain ⟨h0, hlt, hle⟩ := h sp hsp
  have hr : (0 : ℚ) ≤ (sample_rate : ℚ) := Nat.cast_nonneg _
  exact pySlice_length_of_bounds audio_data _ _
    (mul_nonneg h0 hr) (mul_le_mul_of_nonneg_right (le_of_lt hlt) hr) hle

/-- C1 counterexample: the span `(0, 0.28)` on a 3-sample waveform at
10 Hz satisfies `0 ≤ start < end ≤ duration`; the code extracts
`int(2.8) - int(0) = 2` samples, while the claimed count
`round(2.8) - round(0)` is `3`. -/
theorem c1_counterexample :
    (process_segments [⟨0, 7/25, "hi"⟩] [0, 0, 0] 10).map
        (fun seg => seg.audio_data.length) = [2]
    ∧ specSliceCount 0 (7/25) 10 = 3
    ∧ (2 : ℕ) ≠ 3 := by
  refine ⟨?_, ?_, by norm_num⟩
  · have e1 : pyInt (0 : ℚ) = 0 := pyInt_eval _ 0 (by norm_num) (by norm_num) (by norm_num)
    have e2 : pyInt ((7 : ℚ)/25 * 10) = 2 :=
      pyInt_eval _ 2 (by norm_num) (by norm_num) (by norm_num)
    simp [process_segments, pySlice, e1, e2]
  · rw [specSliceCount,
        round_eval ((7 : ℚ)/25 * (10 : ℕ)) 3 (by norm_num) (by norm_num),
        round_eval ((0 : ℚ) * (10 : ℕ)) 0 (by norm_num) (by norm_num)]
    norm_num

/-- C1 witness: the amended count theorem applied to the span `(0, 0.2)`
on a 3-sample waveform at 10 Hz, giving a 2-sample segment. -/
theorem c1_segment_sample_count_witness :
    (process_segments [⟨0, 1/5, "ok"⟩] [0, 0, 0] 10).map
        (fun seg => seg.audio_data.length) = [2] := by
  have h := c1_segment_sample_count [⟨0, 1/5, "ok"⟩] [0, 0, 0] 10 ?_
  · have e1 : pyInt (0 : ℚ) = 0 := pyInt_eval _ 0 (by norm_num) (by norm_num) (by norm_num)
    have e2 : pyInt ((5⁻¹ : ℚ) * 10) = 2 :=
      pyInt_eval _ 2 (by norm_num) (by norm_num) (by norm_num)
    simpa [e1, e2] using h
  · rintro sp hsp
    simp only [List.mem_singleton] at hsp
    subst hsp
    refine ⟨by norm_num, by norm_num, by push_cast; norm_num⟩

/-! ## C9 — session exclusivity dispatch -/

/-- C9 counterexample: `AudioRecorder.start_recording` called while a
recording session is active returns immediately — it neither stops the
active session nor begins a new one, contradicting the claimed
stop-and-wait-then-begin behavior. -/
theorem c9_counterexample :
    start_recording_dispatch true = SessionAction.ignored
    ∧ SessionAction.ignored ≠ SessionAction.stopThenSpawn := by
  exact ⟨rfl, by decide⟩

/-- C9 (amended): `AudioPlayer.play_audio` while a session is active first
requests stop of the active session (flag flip plus a bounded, best-effort
1-second join) and then spawns the new session; `AudioRecorder.start_recording`
while a session is active is ignored outright — no new session begins and
the active one is not stopped.  In both cases the entry point never runs
two sessions from one call. -/
theorem c9_session_dispatch :
    play_audio_dispatch true = SessionAction.stopThenSpawn
    ∧ play_audio_dispatch false = SessionAction.spawnNew
    ∧ start_recording_dispatch true = SessionAction.ignored
    ∧ start_recording_dispatch false = SessionAction.spawnNew :=
  ⟨rfl, rfl, rfl, rfl⟩

/-! ## C3 — cancellation between spans -/

/-- If the `is_running` flag is observed `False` at iteration `k`, the
emission loop starting at index `i ≤ k` emits at most `k - i` iterations'
worth of `segment_completed` events. -/
theorem emitLoop_countP_seg_le (alive : ℕ → Bool) (n : ℕ)
    (segs : List AudioSegment) (i k : ℕ) (hik : i ≤ k) (hk : alive k = false) :
    ((emitLoop alive n i segs).countP isSegReadyEvent) ≤ k - i := by
  induction segs generalizing i with
  | nil => simp [emitLoop]
  | cons seg rest ih =>
    by_cases hi : alive i = true
    · have hne : i ≠ k := by
        rintro rfl
        rw [hk] at hi
        exact Bool.noConfusion hi
      have h' := ih (i + 1) (by omega)
      simp [emitLoop, hi, List.countP_cons, isSegReadyEvent]
      omega
    · rw [Bool.not_eq_true] at hi
      simp [emitLoop, hi]

/-- Same bound for `progress_updated` events. -/
theorem emitLoop_countP_prog_le (alive : ℕ → Bool) (n : ℕ)
    (segs : List AudioSegment) (i k : ℕ) (hik : i ≤ k) (hk : alive k = false) :
    ((emitLoop alive n i segs).countP isProgressEvent) ≤ k - i := by
  induction segs generalizing i with
  | nil => simp [emitLoop]
  | cons seg rest ih =>
    by_cases hi : alive i = true
    · have hne : i ≠ k := by
        rintro rfl
        rw [hk] at hi
        exact Bool.noConfusion hi
      have h' := ih (i + 1) (by omega)
      simp [emitLoop, hi, List.countP_cons, isProgressEvent]
      omega
    · rw [Bool.not_eq_true] at hi
      simp [emitLoop, hi]

/-- C3 (amended): if the cancellation flag is observed `False` at iteration
`k`, the emission loop stops there — at most `k` `segment_completed` and at
most `k` `progress_updated` events fire — but `transcription_finished` is
still emitted for the run: `run` reaches line 104 unconditionally after the
loop `break`s, so the claimed absence of a finished event does not hold. -/
theorem c3_cancel_stops_loop (alive : ℕ → Bool) (language : String)
    (spans : List Span) (audio_data : List ℚ) (sample_rate : ℕ) (k : ℕ)
    (hk : alive k = false) :
    ((runEvents alive language spans audio_data sample_rate).countP
        isSegReadyEvent) ≤ k
    ∧ ((runEvents alive language spans audio_data sample_rate).countP
        isProgressEvent) ≤ k
    ∧ PipeEvent.finished ∈ runEvents alive language spans audio_data sample_rate := by
  refine ⟨?_, ?_, ?_⟩
  · have h := emitLoop_countP_seg_le alive
      (process_segments spans audio_data sample_rate).length
      (process_segments spans audio_data sample_rate) 0 k (Nat.zero_le k) hk
    simpa [runEvents, List.countP_cons, List.countP_append, isSegReadyEvent] using h
  · have h := emitLoop_countP_prog_le alive
      (process_segments spans audio_data sample_rate).length
      (process_segments spans audio_data sample_rate) 0 k (Nat.zero_le k) hk
    simpa [runEvents, List.countP_cons, List.countP_append, isProgressEvent] using h
  · simp [runEvents]

/-- C3 counterexample: two adapter spans, cancellation observed at
iteration 1 (between the spans).  The loop indeed stops — only the first
`segment_completed` fires — but the trace still ends with
`transcription_finished`, which the claim says must not be emitted. -/
theorem c3_counterexample :
    runEvents (fun i => decide (i = 0)) "en" [⟨0, 1, "a"⟩, ⟨1, 2, "b"⟩] [0, 0] 1 =
      [PipeEvent.languageDetected "en" (9 / 10),
       PipeEvent.segmentReady ⟨"a".trim, 0, 1, [0], 1, none⟩,
       PipeEvent.progress 50,
       PipeEvent.finished]
    ∧ PipeEvent.finished ∈
        runEvents (fun i => decide (i = 0)) "en" [⟨0, 1, "a"⟩, ⟨1, 2, "b"⟩] [0, 0] 1 := by
  have e1 : pyInt (0 : ℚ) = 0 := pyInt_eval _ 0 (by norm_num) (by norm_num) (by norm_num)
  have e2 : pyInt (1 : ℚ) = 1 := pyInt_eval _ 1 (by norm_num) (by norm_num) (by norm_num)
  have e3 : pyInt (2 : ℚ) = 2 := pyInt_eval _ 2 (by norm_num) (by norm_num) (by norm_num)
  have e4 : progVal 2 0 = 50 := by
    rw [progVal]
    exact pyInt_eval _ 50 (by norm_num) (by norm_num) (by norm_num)
  constructor
  · simp [runEvents, process_segments, pySlice, emitLoop, e1, e2, e3, e4]
  · simp [runEvents]

/-- C3 witness: the amended theorem applied to the run of the
counterexample shape, with the flag observed `False` at iteration 1. -/
theorem c3_cancel_stops_loop_witness :
    ((runEvents (fun i => decide (i < 1)) "fr" [⟨0, 1, "a"⟩, ⟨1, 2, "b"⟩] [0, 0] 1).countP
        isSegReadyEvent) ≤ 1
    ∧ ((runEvents (fun i => decide (i < 1)) "fr" [⟨0, 1, "a"⟩, ⟨1, 2, "b"⟩] [0, 0] 1).countP
        isProgressEvent) ≤ 1
    ∧ PipeEvent.finished ∈
        runEvents (fun i => decide (i < 1)) "fr" [⟨0, 1, "a"⟩, ⟨1, 2, "b"⟩] [0, 0] 1 :=
  c3_cancel_stops_loop (fun i => decide (i < 1)) "fr" [⟨0, 1, "a"⟩, ⟨1, 2, "b"⟩] [0, 0] 1 1
    (by decide)

/-! ## C7 — event ordering and progress monotonicity -/

theorem segReadyOf_seg (s : AudioSegment) :
    segReadyOf (PipeEvent.segmentReady s) = some s := rfl

theorem segReadyOf_prog (v : ℤ) : segReadyOf (PipeEvent.progress v) = none := rfl

theorem progressOf_seg (s : AudioSegment) :
    progressOf (PipeEvent.segmentReady s) = none := rfl

theorem progressOf_prog (v : ℤ) : progressOf (PipeEvent.progress v) = some v := rfl

/-- Whatever the cancellation schedule, the emission loop's
`segment_completed` payloads are a prefix of the segment list, and its
progress values are `progVal` over the corresponding index range. -/
theorem emitLoop_filterMap (alive : ℕ → Bool) (n : ℕ)
    (segs : List AudioSegment) (i : ℕ) :
    ∃ m, m ≤ segs.length
      ∧ (emitLoop alive n i segs).filterMap segReadyOf = segs.take m
      ∧ (emitLoop alive n i segs).filterMap progressOf
          = (List.range m).map (fun j => progVal n (i + j)) := by
  induction segs generalizing i with
  | nil => exact ⟨0, by simp [emitLoop]⟩
  | cons seg rest ih =>
    by_cases hi : alive i = true
    · obtain ⟨m, hm, h1, h2⟩ := ih (i + 1)
      refine ⟨m + 1, by simpa using hm, ?_, ?_⟩
      · simp [emitLoop, hi, segReadyOf_seg, segReadyOf_prog, h1]
      · rw [List.range_succ_eq_map]
        simp only [emitLoop, hi, if_true, List.filterMap_cons, segReadyOf_seg,
          segReadyOf_prog, progressOf_seg, progressOf_prog, h2, List.map_cons,
          List.map_map]
        refine congrArg₂ _ (by norm_num) ?_
        apply List.map_congr_left
        intro j hj
        simp only [Function.comp]
        congr 1
        omega
    · rw [Bool.not_eq_true] at hi
      exact ⟨0, by simp, by simp [emitLoop, hi], by simp [emitLoop, hi]⟩

/-- With the flag always observed `True`, the loop runs to the end:
every segment is emitted, in order. -/
theorem emitLoop_true_seg (n : ℕ) (segs : List AudioSegment) (i : ℕ) :
    (emitLoop (fun _ => true) n i segs).filterMap segReadyOf = segs := by
  induction segs generalizing i with
  | nil => simp [emitLoop]
  | cons seg rest ih =>
    simp [emitLoop, segReadyOf_seg, segReadyOf_prog, progressOf_prog, ih (i + 1)]

/-- With the flag always observed `True`, the progress values are `progVal`
over the whole index range. -/
theorem emitLoop_true_prog (n : ℕ) (segs : List AudioSegment) (i : ℕ) :
    (emitLoop (fun _ => true) n i segs).filterMap progressOf
      = (List.range segs.length).map (fun j => progVal n (i + j)) := by
  obtain ⟨m, hm, h1, h2⟩ := emitLoop_filterMap (fun _ => true) n segs i
  have : m = segs.length := by
    have := congrArg List.length h1
    rw [emitLoop_true_seg, List.length_take] at this
    omega
  rwa [this] at h2

theorem progVal_mono (n m : ℕ) : progVal n m ≤ progVal n (m + 1) := by
  rcases Nat.eq_zero_or_pos n with hn | hn
  · subst hn
    simp [progVal, div_zero]
  · have hc : (0 : ℚ) < (n : ℚ) := by exact_mod_cast hn
    have h1 : ((m : ℚ) + 1) ≤ (((m + 1 : ℕ) : ℚ) + 1) := by push_cast; linarith
    have harg : ((m : ℚ) + 1) / (n : ℚ) * 100
        ≤ (((m + 1 : ℕ) : ℚ) + 1) / (n : ℚ) * 100 :=
      mul_le_mul_of_nonneg_right ((div_le_div_iff_of_pos_right hc).mpr h1) (by norm_num)
    have p1 : (0 : ℚ) ≤ ((m : ℚ) + 1) / (n : ℚ) * 100 := by positivity
    have p2 : (0 : ℚ) ≤ (((m + 1 : ℕ) : ℚ) + 1) / (n : ℚ) * 100 := by positivity
    rw [progVal, progVal, pyInt_eq_floor _ p1, pyInt_eq_floor _ p2]
    exact Int.floor_le_floor harg

theorem progVal_le_100 (n m : ℕ) (h : m < n) : progVal n m ≤ 100 := by
  have hc : (0 : ℚ) < (n : ℚ) := by
    have : 0 < n := by omega
    exact_mod_cast this
  have hle : ((m : ℚ) + 1) ≤ (n : ℚ) := by exact_mod_cast h
  have harg : ((m : ℚ) + 1) / (n : ℚ) * 100 ≤ 100 := by
    have hq : ((m : ℚ) + 1) / (n : ℚ) ≤ 1 := (div_le_one hc).mpr hle
    calc ((m : ℚ) + 1) / (n : ℚ) * 100 ≤ 1 * 100 :=
          mul_le_mul_of_nonneg_right hq (by norm_num)
      _ = 100 := by norm_num
  have p1 : (0 : ℚ) ≤ ((m : ℚ) + 1) / (n : ℚ) * 100 := by positivity
  rw [progVal, pyInt_eq_floor _ p1]
  calc ⌊((m : ℚ) + 1) / (n : ℚ) * 100⌋ ≤ ⌊(100 : ℚ)⌋ := Int.floor_le_floor harg
    _ = 100 := by norm_num

theorem progVal_last (n : ℕ) (h : 0 < n) : progVal n (n - 1) = 100 := by
  have hne : (n : ℚ) ≠ 0 := by exact_mod_cast Nat.pos_iff_ne_zero.mp h
  have harg : (((n - 1 : ℕ) : ℚ) + 1) / (n : ℚ) * 100 = 100 := by
    rw [Nat.cast_sub h]
    push_cast
    field_simp
  rw [progVal, harg]
  exact pyInt_eval _ 100 (by norm_num) (by norm_num) (by norm_num)

theorem chain'_le_map_range (f : ℕ → ℤ) (hf : ∀ m, f m ≤ f (m + 1)) (len : ℕ) :
    List.Chain' (· ≤ ·) ((List.range len).map f) := by
  rw [List.chain'_map]
  cases len with
  | zero => simp
  | succ len' => exact (List.chain'_range_succ _ len').mpr fun m _ => hf m

/-- The progress events of a full (never-cancelled) run are `progVal` over
the whole segment index range. -/
theorem runEvents_prog_true (language : String) (spans : List Span)
    (audio_data : List ℚ) (sample_rate : ℕ) :
    (runEvents (fun _ => true) language spans audio_data sample_rate).filterMap
        progressOf
      = (List.range (process_segments spans audio_data sample_rate).length).map
          (fun j => progVal (process_segments spans audio_data sample_rate).length j) := by
  have h := emitLoop_true_prog (process_segments spans audio_data sample_rate).length
    (process_segments spans audio_data sample_rate) 0
  simp only [Nat.zero_add] at h
  simpa [runEvents, progressOf] using h

/-- C7 (amended): for every run, `language_detected` is the first event
(hence precedes every `segment_completed`), the emitted segments form a
prefix of the extracted segment list in adapter-span order, and the
progress values are non-decreasing and bounded by 100.  On normal
completion the progress sequence ends at exactly 100 *provided at least
one span exists*; a zero-span run completes normally with no progress
events at all. -/
theorem c7_event_ordering (alive : ℕ → Bool) (language : String)
    (spans : List Span) (audio_data : List ℚ) (sample_rate : ℕ) :
    (runEvents alive language spans audio_data sample_rate).head?
        = some (PipeEvent.languageDetected language (9 / 10))
    ∧ (∃ m, (runEvents alive language spans audio_data sample_rate).filterMap
          segReadyOf = (process_segments spans audio_data sample_rate).take m)
    ∧ List.Chain' (· ≤ ·)
        ((runEvents alive language spans audio_data sample_rate).filterMap progressOf)
    ∧ (∀ p ∈ (runEvents alive language spans audio_data sample_rate).filterMap
          progressOf, p ≤ 100)
    ∧ (spans ≠ [] →
        ((runEvents (fun _ => true) language spans audio_data
            sample_rate).filterMap progressOf).getLast? = some 100) := by
  obtain ⟨m, hm, h1, h2⟩ := emitLoop_filterMap alive
    (process_segments spans audio_data sample_rate).length
    (process_segments spans audio_data sample_rate) 0
  simp only [Nat.zero_add] at h2
  have hseg : (runEvents alive language spans audio_data sample_rate).filterMap
      segReadyOf = (emitLoop alive
        (process_segments spans audio_data sample_rate).length 0
        (process_segments spans audio_data sample_rate)).filterMap segReadyOf := by
    simp [runEvents, segReadyOf]
  have hprog : (runEvents alive language spans audio_data sample_rate).filterMap
      progressOf = (emitLoop alive
        (process_segments spans audio_data sample_rate).length 0
        (process_segments spans audio_data sample_rate)).filterMap progressOf := by
    simp [runEvents, progressOf]
  refine ⟨rfl, ⟨m, by rw [hseg, h1]⟩, ?_, ?_, ?_⟩
  · rw [hprog, h2]
    exact chain'_le_map_range _ (progVal_mono _) m
  · intro p hp
    rw [hprog, h2] at hp
    obtain ⟨j, hj, rfl⟩ := List.mem_map.mp hp
    exact progVal_le_100 _ j (lt_of_lt_of_le (List.mem_range.mp hj) hm)
  · intro hne
    have hlen : 0 < (process_segments spans audio_data sample_rate).length := by
      simp only [process_segments, List.length_map]
      exact List.length_pos.mpr hne
    rw [runEvents_prog_true]
    obtain ⟨len', hl⟩ : ∃ len',
        (process_segments spans audio_data sample_rate).length = len' + 1 :=
      ⟨_, (Nat.succ_pred_eq_of_pos hlen).symm⟩
    rw [hl, List.range_succ, List.map_append]
    simp only [List.map_cons, List.map_nil]
    rw [List.getLast?_concat]
    have : progVal (len' + 1) len' = 100 := by
      have h100 := progVal_last (len' + 1) (Nat.succ_pos len')
      simpa using h100
    rw [this]

/-- C7 counterexample: a run over zero adapter spans completes normally
(`transcription_finished` is emitted) yet emits no progress event at all,
so the progress sequence does not end at 100. -/
theorem c7_counterexample :
    PipeEvent.finished ∈ runEvents (fun _ => true) "en" [] [] 16000
    ∧ (runEvents (fun _ => true) "en" [] [] 16000).filterMap progressOf = []
    ∧ ((runEvents (fun _ => true) "en" [] [] 16000).filterMap
        progressOf).getLast? ≠ some 100 := by
  refine ⟨by simp [runEvents], ?_, ?_⟩
  · simp [runEvents, process_segments, emitLoop, progressOf]
  · simp [runEvents, process_segments, emitLoop, progressOf]

/-- C7 witness: a one-span run has the language event first, non-decreasing
progress, and a progress sequence ending at exactly 100. -/
theorem c7_event_ordering_witness :
    (runEvents (fun _ => true) "en" [⟨0, 1, "a"⟩] [0] 1).head?
        = some (PipeEvent.languageDetected "en" (9 / 10))
    ∧ List.Chain' (· ≤ ·)
        ((runEvents (fun _ => true) "en" [⟨0, 1, "a"⟩] [0] 1).filterMap progressOf)
    ∧ ((runEvents (fun _ => true) "en" [⟨0, 1, "a"⟩] [0] 1).filterMap
        progressOf).getLast? = some 100 := by
  have h := c7_event_ordering (fun _ => true) "en" [⟨0, 1, "a"⟩] [0] 1
  exact ⟨h.1, h.2.2.1, h.2.2.2.2 (by simp)⟩

/-! ## C10 — the constant language confidence -/

/-- C10: whatever the cancellation schedule, detected language, spans,
waveform and rate, the `language_detected` event is the first event of the
run and always carries confidence `0.9`. -/
theorem c10_confidence_constant (alive : ℕ → Bool) (language : String)
    (spans : List Span) (audio_data : List ℚ) (sample_rate : ℕ) :
    (runEvents alive language spans audio_data sample_rate).head?
      = some (PipeEvent.languageDetected language (9 / 10)) := rfl

/-! ## C5 — peak normalization before playback -/

theorem np_peak_cons (a : ℚ) (l : List ℚ) : np_peak (a :: l) = max |a| (np_peak l) := rfl

theorem np_peak_nonneg (xs : List ℚ) : 0 ≤ np_peak xs := by
  induction xs with
  | nil => simp [np_peak]
  | cons a l ih => exact le_trans ih (le_max_right _ _) |>.trans (le_of_eq (np_peak_cons a l).symm)

theorem np_peak_map_div (xs : List ℚ) (p : ℚ) (hp : 0 < p) :
    np_peak (xs.map (fun x => x / p)) = np_peak xs / p := by
  induction xs with
  | nil => simp [np_peak, zero_div]
  | cons a l ih =>
    simp only [List.map_cons, np_peak_cons, ih]
    rw [abs_div, abs_of_pos hp, max_div_div_right (le_of_lt hp)]

/-- C5: a buffer whose peak absolute amplitude exceeds `1.0` is divided by
that peak before being handed to the playback thread, and the result's peak
absolute value is exactly `1`; a nonempty buffer whose peak is at most `1.0`
is passed through unchanged. -/
theorem c5_normalization (audio_data : List ℚ) :
    (1 < np_peak audio_data →
      play_audio_prepare audio_data
          = some (audio_data.map (fun x => x / np_peak audio_data))
        ∧ np_peak (audio_data.map (fun x => x / np_peak audio_data)) = 1)
    ∧ (np_peak audio_data ≤ 1 → audio_data ≠ [] →
        play_audio_prepare audio_data = some audio_data) := by
  constructor
  · intro h
    have hpos : 0 < np_peak audio_data := lt_trans zero_lt_one h
    have hne : audio_data ≠ [] := by
      rintro rfl
      rw [show np_peak [] = 0 from rfl] at h
      norm_num at h
    refine ⟨by simp [play_audio_prepare, hne, h], ?_⟩
    rw [np_peak_map_div _ _ hpos, div_self (ne_of_gt hpos)]
  · intro h hne
    simp [play_audio_prepare, hne, not_lt.mpr h]

/-- C5 witness: the buffer `[2]` has peak `2 > 1` and is rescaled to `[1]`,
whose peak is exactly `1`; the already-normalized `[1/2]` passes through
unchanged. -/
theorem c5_normalization_witness :
    play_audio_prepare [2] = some [1]
    ∧ np_peak [(1 : ℚ)] = 1
    ∧ play_audio_prepare [1/2] = some [1/2] := by
  have hp : np_peak [(2 : ℚ)] = 2 := by decide
  have hq : np_peak [(1 : ℚ)/2] = 1/2 := by
    rw [np_peak_cons, show np_peak ([] : List ℚ) = 0 from rfl,
      abs_of_nonneg (by norm_num : (0 : ℚ) ≤ 1/2)]
    exact max_eq_left (by norm_num)
  have h := (c5_normalization [2]).1 (by rw [hp]; norm_num)
  have h2 := (c5_normalization [1/2]).2 (by rw [hq]; norm_num) (by simp)
  refine ⟨?_, ?_, h2⟩
  · rw [h.1, hp]
    norm_num
  · have hn := h.2
    rw [hp] at hn
    norm_num at hn
    exact hn

/-! ## C4 — empty recordings are errors, nonempty ones are delivered -/

/-- C4: for a recording session whose device opened successfully, a session
that stops with zero accumulated samples emits the empty-recording error
(and no finished event); one with at least one sample emits
`recording_finished` carrying the full accumulated buffer.  Moreover no
recording session — whatever its open result — ever delivers a finished
event with an empty buffer. -/
theorem c4_empty_recording (read : ℕ → Option (List ℚ)) (stopAt : ℕ) :
    (recLoop read stopAt 0 = [] →
      recThreadEvents none read stopAt
        = [RecEvent.started, RecEvent.error "录音数据为空"])
    ∧ (recLoop read stopAt 0 ≠ [] →
      recThreadEvents none read stopAt
        = [RecEvent.started, RecEvent.finished (recLoop read stopAt 0)])
    ∧ ∀ (openRes : Option String) (buf : List ℚ),
        RecEvent.finished buf ∈ recThreadEvents openRes read stopAt → buf ≠ [] := by
  refine ⟨fun h => by simp [recThreadEvents, h],
          fun h => by simp [recThreadEvents, h], ?_⟩
  intro openRes buf hmem
  cases openRes with
  | some e => simp [recThreadEvents] at hmem
  | none =>
    by_cases h : recLoop read stopAt 0 = []
    · simp [recThreadEvents, h] at hmem
    · simp [recThreadEvents, h] at hmem
      rw [hmem]
      exact h

/-- C4 witness: one successful chunk read then stop gives
`finished [2]`; stopping before any iteration gives the empty-recording
error. -/
theorem c4_empty_recording_witness :
    recThreadEvents none (fun _ => some [2]) 1
        = [RecEvent.started, RecEvent.finished [2]]
    ∧ recThreadEvents none (fun _ => some [2]) 0
        = [RecEvent.started, RecEvent.error "录音数据为空"] := by
  constructor
  · exact ((c4_empty_recording (fun _ => some [2]) 1).2.1 (by decide)).trans (by decide)
  · exact (c4_empty_recording (fun _ => some [2]) 0).1 (by decide)

/-! ## C6 — a read failure ends the recording loop -/

/-- C6 counterexample: with reads succeeding at iterations 0 and 2 but
failing at iteration 1, the code's loop stops at the failure and keeps only
chunk 0, while the claimed skip-and-continue loop would also capture
chunk 2. -/
theorem c6_counterexample :
    recLoop (fun k => if k = 1 then none else some [(k : ℚ)]) 3 0 = [0]
    ∧ specSkipContinueLoop (fun k => if k = 1 then none else some [(k : ℚ)]) 3 0 = [0, 2]
    ∧ recLoop (fun k => if k = 1 then none else some [(k : ℚ)]) 3 0
        ≠ specSkipContinueLoop (fun k => if k = 1 then none else some [(k : ℚ)]) 3 0 := by
  exact ⟨by decide, by decide, by decide⟩

/-- C6 (amended): the first failing read ends the loop immediately — from a
failing iteration nothing further is read or accumulated (no
skip-and-continue) — and whatever was accumulated before the failure is
still delivered as a finished recording when nonempty. -/
theorem c6_read_failure (read : ℕ → Option (List ℚ)) (r i stopAt : ℕ) :
    (0 < r → read i = none → recLoop read r i = [])
    ∧ (recLoop read stopAt 0 ≠ [] →
        recThreadEvents none read stopAt
          = [RecEvent.started, RecEvent.finished (recLoop read stopAt 0)]) := by
  constructor
  · intro hr hread
    cases r with
    | zero => omega
    | succ r' => simp [recLoop, hread]
  · intro h
    simp [recThreadEvents, h]

/-- C6 witness: a read failure at iteration 1 (reads succeed at 0) stops
the loop there, and the single accumulated chunk is still delivered via
`recording_finished`. -/
theorem c6_read_failure_witness :
    recLoop (fun k => if k = 0 then some [5] else none) 2 1 = []
    ∧ recThreadEvents none (fun k => if k = 0 then some [5] else none) 2
        = [RecEvent.started, RecEvent.finished [5]] := by
  have h := c6_read_failure (fun k => if k = 0 then some [5] else none) 2 1 2
  exact ⟨h.1 (by norm_num) (by decide), (h.2 (by decide)).trans (by decide)⟩

/-! ## C2 — terminal events per session -/

theorem writeChunks_countP_finished (writeRes : ℕ → Option String)
    (alive : ℕ → Bool) (k : ℕ) (cs : List (List ℚ)) :
    (writeChunks writeRes alive k cs).countP isFinishedPlay = 0 := by
  induction cs generalizing k with
  | nil => simp [writeChunks]
  | cons c rest ih =>
    by_cases hk : alive k = true
    · simp only [writeChunks, hk, if_true]
      cases hw : writeRes k with
      | none => simp [List.countP_cons, isFinishedPlay, ih (k + 1)]
      | some e => simp [List.countP_cons, isFinishedPlay]
    · rw [Bool.not_eq_true] at hk
      simp [writeChunks, hk]

/-- C2 (amended): every playback session emits exactly one
`playback_finished`, and it is the session's final event — the `finally`
clause emits it even on the device-open-failure and write-failure paths,
where a `playback_error` precedes it (error does not replace finished).
Every recording session emits exactly one terminal event
(`recording_finished` or `recording_error`). -/
theorem c2_terminal_events (openResP : Option String)
    (writeRes : ℕ → Option String) (alive : ℕ → Bool) (audio_data : List ℚ)
    (openResR : Option String) (read : ℕ → Option (List ℚ)) (stopAt : ℕ) :
    (playThreadEvents openResP writeRes alive audio_data).countP isFinishedPlay = 1
    ∧ (playThreadEvents openResP writeRes alive audio_data).getLast?
        = some PlayEvent.finished
    ∧ (recThreadEvents openResR read stopAt).countP isTerminalRec = 1 := by
  refine ⟨?_, ?_, ?_⟩
  · cases openResP with
    | some e =>
      simp [playThreadEvents, List.countP_cons, List.countP_append, isFinishedPlay]
    | none =>
      simp [playThreadEvents, List.countP_cons, List.countP_append, isFinishedPlay,
        writeChunks_countP_finished]
  · unfold playThreadEvents
    rw [← List.cons_append, List.getLast?_concat]
  · cases openResR with
    | some e => simp [recThreadEvents, List.countP_cons, isTerminalRec]
    | none =>
      by_cases h : recLoop read stopAt 0 = [] <;>
        simp [recThreadEvents, h, List.countP_cons, isTerminalRec]

/-- C2 counterexample: a playback session whose device fails to open emits
`playback_error` *and then* `playback_finished` (from the `finally`
clause) — two terminal events, with the error firing in addition to, not
instead of, the finished event. -/
theorem c2_counterexample :
    playThreadEvents (some "open failed") (fun _ => none) (fun _ => true) []
      = [PlayEvent.started, PlayEvent.error "播放线程出错: open failed",
         PlayEvent.finished]
    ∧ (playThreadEvents (some "open failed") (fun _ => none) (fun _ => true)
        []).countP isTerminalPlay = 2 := by
  exact ⟨by decide, by decide⟩

/-! ## C8 — fixed 1024-sample chunks with zero padding -/

theorem toChunks_mem_length_le (audio : List ℚ) :
    ∀ c ∈ toChunks audio, c.length ≤ 1024 := by
  induction audio using toChunks.induct with
  | case1 => simp [toChunks]
  | case2 x rest ih =>
    intro c hc
    simp only [toChunks] at hc
    rcases List.mem_cons.mp hc with h | h
    · subst h
      exact List.length_take_le _ _
    · exact ih c h

theorem pad1024_length (c : List ℚ) (h : c.length ≤ 1024) :
    (pad1024 c).length = 1024 := by
  simp only [pad1024, List.length_append, List.length_replicate]
  omega

theorem writeChunks_chunks_all (writeRes : ℕ → Option String) (alive : ℕ → Bool)
    (k : ℕ) (cs : List (List ℚ)) (h : ∀ c ∈ cs, c.length ≤ 1024) :
    ((writeChunks writeRes alive k cs).filterMap writtenChunk).Forall
      (fun c => c.length = 1024) := by
  induction cs generalizing k with
  | nil => simp [writeChunks]
  | cons c rest ih =>
    have hc := h c (by simp)
    have hrest : ∀ c ∈ rest, c.length ≤ 1024 := fun c hm => h c (by simp [hm])
    by_cases hk : alive k = true
    · simp only [writeChunks, hk, if_true]
      cases hw : writeRes k with
      | none =>
        simp only [List.filterMap_cons, writtenChunk, List.forall_cons]
        exact ⟨pad1024_length c hc, ih (k + 1) hrest⟩
      | some e =>
        simp only [List.filterMap_cons, writtenChunk, List.forall_cons]
        exact ⟨pad1024_length c hc, trivial⟩
    · rw [Bool.not_eq_true] at hk
      simp [writeChunks, hk]

theorem writeChunks_ok_filterMap (cs : List (List ℚ)) (k : ℕ) :
    (writeChunks (fun _ => none) (fun _ => true) k cs).filterMap writtenChunk
      = cs.map pad1024 := by
  induction cs generalizing k with
  | nil => simp [writeChunks]
  | cons c rest ih => simp [writeChunks, writtenChunk, ih (k + 1)]

theorem toChunks_join_pad (audio : List ℚ) :
    ((toChunks audio).map pad1024).flatten
      = audio ++ List.replicate ((1024 - audio.length % 1024) % 1024) 0 := by
  induction audio using toChunks.induct with
  | case1 => simp [toChunks]
  | case2 x rest ih =>
    have hpos : 1 ≤ (x :: rest).length := by simp
    by_cases hL : (x :: rest).length ≤ 1024
    · have hd : (x :: rest).drop 1024 = [] := List.drop_eq_nil_of_le hL
      have ht : (x :: rest).take 1024 = x :: rest := List.take_of_length_le hL
      have hcount : (1024 - (x :: rest).length % 1024) % 1024
          = 1024 - (x :: rest).length := by omega
      simp only [toChunks, List.map_cons, hd, ht, List.map_nil,
        List.flatten_cons, List.flatten_nil, List.append_nil, hcount, pad1024]
    · push_neg at hL
      have hlen : ((x :: rest).drop 1024).length = (x :: rest).length - 1024 :=
        List.length_drop _ _
      have htlen : ((x :: rest).take 1024).length = 1024 := by
        rw [List.length_take]
        omega
      simp only [toChunks, List.map_cons, List.flatten_cons]
      rw [ih, pad1024, htlen]
      simp only [Nat.sub_self, List.replicate_zero, List.append_nil]
      rw [← List.append_assoc, List.take_append_drop]
      have : (1024 - ((x :: rest).drop 1024).length % 1024) % 1024
          = (1024 - (x :: rest).length % 1024) % 1024 := by
        rw [hlen]
        omega
      rw [this]

/-- C8: every chunk handed to the output device by the playback thread has
exactly 1024 samples — whatever the stop schedule and write outcomes — and
on an uninterrupted, failure-free session the written chunks are exactly
the audio buffer zero-padded at the end to a multiple of 1024. -/
theorem c8_chunk_size (writeRes : ℕ → Option String)
    (alive : ℕ → Bool) (audio_data : List ℚ) :
    (((playThreadEvents none writeRes alive audio_data).filterMap
        writtenChunk).Forall (fun c => c.length = 1024))
    ∧ ((playThreadEvents none (fun _ => none) (fun _ => true)
        audio_data).filterMap writtenChunk).flatten
        = audio_data
          ++ List.replicate ((1024 - audio_data.length % 1024) % 1024) 0 := by
  have hpe : ∀ (w : ℕ → Option String) (a : ℕ → Bool),
      (playThreadEvents none w a audio_data).filterMap writtenChunk
        = (writeChunks w a 0 (toChunks audio_data)).filterMap writtenChunk := by
    intro w a
    simp [playThreadEvents, writtenChunk, List.filterMap_append]
  constructor
  · rw [hpe]
    exact writeChunks_chunks_all _ _ _ _ (toChunks_mem_length_le audio_data)
  · rw [hpe, writeChunks_ok_filterMap, toChunks_join_pad]

end LangTool
